import Mathlib

/-!
Verification of the h3ws2h1ws-proxy WebSocket core.

This file gives a shallow embedding of the repository code that the claims
refer to and proves the claims against it:

* `internal/ws/framing.go` — the RFC 6455 frame codec (`ReadFrame`,
  `writeFrame`, `WriteDataFrame`, `WriteControlFrame`, `WriteCloseFrame`,
  `ParseClosePayload`).
* `internal/proxy/proxy.go` — the H3→backend pump dispatch loop
  (`pumpH3ToBackend`), the backend close handler of `pumpBackendToH3`, and
  the active-counter discipline of `HandleH3WebSocket`.

Bytes are modelled as `Nat` (octets, values below 256 on the wire); byte
streams as `List Nat`.  Go machine-integer conversions are made explicit
(`uint16 x` becomes `x % 65536`, and the `int64` sign check after the
64-bit length read becomes a comparison with `2 ^ 63`).  I/O is modelled by
state passing: a reader is the list of bytes not yet consumed, a writer is
the list of bytes produced.  The 4-byte random mask key drawn from
`crypto/rand` is an explicit parameter.
-/

namespace WS

/-- RFC 6455 opcodes, from `internal/ws/framing.go`. -/
def OpCont : Nat := 0x0

def OpText : Nat := 0x1

def OpBinary : Nat := 0x2

def OpClose : Nat := 0x8

def OpPing : Nat := 0x9

def OpPong : Nat := 0xA

/-- One decoded frame, mirroring `ws.Frame` (fields Fin, Opcode, Masked,
Payload). -/
structure Frame where
  fin : Bool
  opcode : Nat
  masked : Bool
  payload : List Nat
  deriving DecidableEq, Repr

/-- Models `io.ReadFull`: consume exactly `n` bytes from the stream, or fail
when fewer are available. -/
def readFull (n : Nat) (s : List Nat) : Option (List Nat × List Nat) :=
  if n ≤ s.length then some (s.take n, s.drop n) else none

/-- Models the masking loop of the codec, which xors byte `i` of the buffer
with byte `i mod 4` of the key, the running index made explicit.  The same
loop is used by `ReadFrame` to unmask and by `writeFrame` to mask a copy of
the payload. -/
def maskFrom (key : List Nat) : Nat → List Nat → List Nat
  | _, [] => []
  | i, b :: rest => (b ^^^ key.getD (i % 4) 0) :: maskFrom key (i + 1) rest

/-- Big-endian value of a byte list, as computed by
`binary.BigEndian.Uint16` / `binary.BigEndian.Uint64` on 2- resp. 8-byte
inputs. -/
def beUint (bs : List Nat) : Nat :=
  bs.foldl (fun acc b => acc * 256 + b) 0

/-- The two bytes `binary.BigEndian.PutUint16` stores for `n` (for
`n < 65536` these are exactly the Go bytes; larger `n` model the implicit
`uint16` truncation). -/
def be16 (n : Nat) : List Nat :=
  [n / 256 % 256, n % 256]

/-- The eight bytes `binary.BigEndian.PutUint64` stores for `uint64 n`. -/
def be64 (n : Nat) : List Nat :=
  [n / 256 ^ 7 % 256, n / 256 ^ 6 % 256, n / 256 ^ 5 % 256, n / 256 ^ 4 % 256,
   n / 256 ^ 3 % 256, n / 256 ^ 2 % 256, n / 256 % 256, n % 256]

/-- The header bytes emitted by `writeFrame` (framing.go lines 134-161) for a
payload of length `n`: `b0` carries fin and opcode, `b1` carries the mask bit
and the 7-bit / 7+16 / 7+64 length form. -/
def frameHeader (opcode : Nat) (n : Nat) (masked : Bool) (fin : Bool) : List Nat :=
  let b0 := (opcode &&& 0x0F) ||| (if fin then 0x80 else 0)
  let b1m : Nat := if masked then 0x80 else 0
  if n ≤ 125 then
    [b0, b1m ||| n]
  else if n ≤ 65535 then
    [b0, b1m ||| 126] ++ be16 n
  else
    [b0, b1m ||| 127] ++ be64 n

/-- All bytes `writeFrame` writes to the stream.  `key` models the fresh
4-byte mask key drawn from `crypto/rand` when `masked`; the Go code copies
the payload into a new buffer `m` and masks `m`, so the stream carries
`maskFrom key 0 payload` while the caller payload stays a plain value. -/
def writeFrame (opcode : Nat) (payload : List Nat) (masked : Bool) (fin : Bool)
    (key : List Nat) : List Nat :=
  frameHeader opcode payload.length masked fin ++
    (if masked then key ++ maskFrom key 0 payload else payload)

/-- Decoder error cases of `ReadFrame`: any short read from the underlying
reader, the negative-`int64` length check, and the size-limit check. -/
inductive ReadErr where
  | shortRead
  | invalidLength
  | frameTooLarge
  deriving DecidableEq, Repr

instance : DecidableEq (Except ReadErr Frame)
  | .ok x, .ok y =>
    if h : x = y then .isTrue (h ▸ rfl) else .isFalse fun hc => h (Except.ok.inj hc)
  | .error x, .error y =>
    if h : x = y then .isTrue (h ▸ rfl) else .isFalse fun hc => h (Except.error.inj hc)
  | .ok _, .error _ => .isFalse fun hc => Except.noConfusion hc
  | .error _, .ok _ => .isFalse fun hc => Except.noConfusion hc

/-- Result of one `ReadFrame` call: the frame or the error, the bytes left
unconsumed in the reader at that point, and the number of
`oversize_drops{kind=frame}` counter increments performed. -/
structure ReadOutcome where
  result : Except ReadErr Frame
  rest : List Nat
  oversizeFrameDrops : Nat
  deriving DecidableEq, Repr

/-- Continuation of `ReadFrame` once fin/opcode/masked and the payload length
`plen` are known (framing.go lines 65-87): the size-limit check (which bumps
`oversize_drops{kind=frame}` and returns without touching the reader again),
then the mask key, the payload, and unmasking. -/
def readRest (fin : Bool) (opcode : Nat) (masked : Bool) (plen : Nat)
    (s : List Nat) (maxFramePayload : Int) : ReadOutcome :=
  if 0 < maxFramePayload ∧ maxFramePayload < (plen : Int) then
    ⟨.error .frameTooLarge, s, 1⟩
  else
    match (if masked then readFull 4 s else some ([], s)) with
    | none => ⟨.error .shortRead, s, 0⟩
    | some (maskKey, s1) =>
      match readFull plen s1 with
      | none => ⟨.error .shortRead, s1, 0⟩
      | some (raw, s2) =>
        ⟨.ok ⟨fin, opcode, masked, if masked then maskFrom maskKey 0 raw else raw⟩, s2, 0⟩

/-- Models `ws.ReadFrame` (framing.go lines 30-88) on a byte stream: header
bytes `b0`, `b1`, then the 126/127 extended length forms (with the
`int64` negativity check on the 64-bit form), then `readRest`. -/
def ReadFrame (input : List Nat) (maxFramePayload : Int) : ReadOutcome :=
  match input with
  | b0 :: b1 :: s =>
    let fin := (b0 &&& 0x80) != 0
    let opcode := b0 &&& 0x0F
    let masked := (b1 &&& 0x80) != 0
    let plen0 := b1 &&& 0x7F
    if plen0 = 126 then
      match readFull 2 s with
      | none => ⟨.error .shortRead, s, 0⟩
      | some (tmp, s1) => readRest fin opcode masked (beUint tmp) s1 maxFramePayload
    else if plen0 = 127 then
      match readFull 8 s with
      | none => ⟨.error .shortRead, s, 0⟩
      | some (tmp, s1) =>
        if 2 ^ 63 ≤ beUint tmp then ⟨.error .invalidLength, s1, 0⟩
        else readRest fin opcode masked (beUint tmp) s1 maxFramePayload
    else
      readRest fin opcode masked plen0 s maxFramePayload
  | _ => ⟨.error .shortRead, [], 0⟩

/-- One frame as emitted by `WriteDataFrame`: the opcode passed to
`writeFrame`, the payload chunk, and the fin flag. -/
structure SentFrame where
  op : Nat
  chunk : List Nat
  fin : Bool
  deriving DecidableEq, Repr

/-- The fragmentation loop of `WriteDataFrame` (framing.go lines 95-114).
The Go loop runs while `len(remaining) > maxFramePayload`; the caller
guarantees `0 < m` (it is only entered with `maxFramePayload > 0`), and that
conjunct also makes the recursion well-founded. -/
def splitChunks (m : Nat) (first : Bool) (opcode : Nat) (remaining : List Nat) :
    List SentFrame :=
  if h : 0 < m ∧ m < remaining.length then
    ⟨if first then opcode else OpCont, remaining.take m, false⟩ ::
      splitChunks m false opcode (remaining.drop m)
  else
    [⟨if first then opcode else OpCont, remaining, true⟩]
  termination_by remaining.length
  decreasing_by simp only [List.length_drop]; omega

/-- Models `ws.WriteDataFrame` (framing.go lines 90-115) as the list of
frames handed to `writeFrame`, in order. -/
def WriteDataFrame (opcode : Nat) (payload : List Nat) (maxFramePayload : Int) :
    List SentFrame :=
  if maxFramePayload ≤ 0 ∨ (payload.length : Int) ≤ maxFramePayload then
    [⟨opcode, payload, true⟩]
  else
    splitChunks maxFramePayload.toNat true opcode payload

/-- Concatenation of the payload chunks of a frame sequence, used to state
that fragmentation preserves the message bytes. -/
def chunksConcat (fs : List SentFrame) : List Nat :=
  (fs.map SentFrame.chunk).foldr (fun a b => a ++ b) []

/-- Models `ws.WriteControlFrame` (framing.go lines 117-122): truncate to 125
bytes, emit unmasked with fin set. -/
def WriteControlFrame (opcode : Nat) (payload : List Nat) : List Nat :=
  writeFrame opcode (if 125 < payload.length then payload.take 125 else payload)
    false true []

/-- Models `ws.WriteCloseFrame` (framing.go lines 124-132): payload is the
big-endian `uint16` code followed by the reason bytes, truncated to 125,
written unmasked with opcode CLOSE and fin set. -/
def WriteCloseFrame (code : Nat) (reason : List Nat) : List Nat :=
  let pl := be16 code ++ reason
  writeFrame OpClose (if 125 < pl.length then pl.take 125 else pl) false true []

/-- Models `ws.ParseClosePayload` (framing.go lines 188-198): fewer than two
bytes give `(1000, "")`, otherwise the big-endian code and the remaining
bytes as the reason. -/
def ParseClosePayload (p : List Nat) : Nat × List Nat :=
  match p with
  | c0 :: c1 :: rest => (c0 * 256 + c1, rest)
  | _ => (1000, [])

/-- The UTF-8 bytes of the close reason string "message too big" used by the
pump oversize branches. -/
def msgTooBig : List Nat :=
  [109, 101, 115, 115, 97, 103, 101, 32, 116, 111, 111, 32, 98, 105, 103]

/-- Assembler state of `pumpH3ToBackend` (proxy.go lines 136-140). -/
structure PumpState where
  assembling : Bool
  assemOpcode : Nat
  assemPayload : List Nat
  deriving DecidableEq, Repr

/-- Observable side effects of the H3→backend pump, in program order:
message writes to the backend (`bws.WriteMessage`), CLOSE and PONG frames
written to the H3 stream, and best-effort control forwards to the backend
(`bws.WriteControl`). -/
inductive H3Out where
  | toBackend (op : Nat) (msg : List Nat)
  | closeH3 (code : Nat) (reason : List Nat)
  | pongH3 (p : List Nat)
  | pingBackend (p : List Nat)
  | pongBackend (p : List Nat)
  | closeBackend (code : Nat) (reason : List Nat)
  deriving DecidableEq, Repr

/-- How a `pumpH3ToBackend` run over the modelled frame list ends.  The first
three are the `errors.New` returns of the dispatch loop, `eofClose` is the
`io.EOF` return after a CLOSE frame, and `inputExhausted` marks the model
boundary where the Go loop would block on the next `ReadFrame`. -/
inductive PumpExit where
  | newDataWhileAssembling
  | contWithoutStart
  | msgTooBig
  | eofClose
  | inputExhausted
  deriving DecidableEq, Repr

/-- Result of a pump run: side effects in order, the number of
`oversize_drops{kind=message}` increments, and how the loop ended. -/
structure PumpResult where
  outs : List H3Out
  oversizeMsgDrops : Nat
  exit : PumpExit
  deriving DecidableEq, Repr

/-- Models `flushMessage` (proxy.go lines 142-158): TEXT and BINARY messages
are written to the backend; the default branch writes nothing. -/
def flushMessage (op : Nat) (msg : List Nat) : List H3Out :=
  if op = OpText ∨ op = OpBinary then [.toBackend op msg] else []

/-- Models the dispatch loop of `pumpH3ToBackend` (proxy.go lines 160-235)
over a list of already-decoded incoming frames.  Each case mirrors the Go
switch: the TEXT/BINARY case (lines 173-195), the CONT case (lines 197-215),
PING/PONG forwarding, and CLOSE (parse, forward, echo, return `io.EOF`).
Opcodes matching no case are ignored.  Writes are modelled as always
succeeding, and the cancellation check is not modelled. -/
def pumpH3ToBackend (lim : Int) (st : PumpState) : List Frame → PumpResult
  | [] => ⟨[], 0, .inputExhausted⟩
  | f :: fs =>
    if f.opcode = OpText ∨ f.opcode = OpBinary then
      if st.assembling then
        ⟨[], 0, .newDataWhileAssembling⟩
      else if f.fin then
        if lim < (f.payload.length : Int) then
          ⟨[.closeH3 1009 msgTooBig], 1, .msgTooBig⟩
        else
          let r := pumpH3ToBackend lim st fs
          ⟨flushMessage f.opcode f.payload ++ r.outs, r.oversizeMsgDrops, r.exit⟩
      else
        let st' : PumpState := ⟨true, f.opcode, f.payload⟩
        if lim < (st'.assemPayload.length : Int) then
          ⟨[.closeH3 1009 msgTooBig], 1, .msgTooBig⟩
        else
          pumpH3ToBackend lim st' fs
    else if f.opcode = OpCont then
      if !st.assembling then
        ⟨[], 0, .contWithoutStart⟩
      else
        let st' : PumpState := ⟨true, st.assemOpcode, st.assemPayload ++ f.payload⟩
        if lim < (st'.assemPayload.length : Int) then
          ⟨[.closeH3 1009 msgTooBig], 1, .msgTooBig⟩
        else if f.fin then
          let r := pumpH3ToBackend lim ⟨false, st.assemOpcode, []⟩ fs
          ⟨flushMessage st.assemOpcode st'.assemPayload ++ r.outs, r.oversizeMsgDrops, r.exit⟩
        else
          pumpH3ToBackend lim st' fs
    else if f.opcode = OpPing then
      let r := pumpH3ToBackend lim st fs
      ⟨.pongH3 f.payload :: .pingBackend f.payload :: r.outs, r.oversizeMsgDrops, r.exit⟩
    else if f.opcode = OpPong then
      let r := pumpH3ToBackend lim st fs
      ⟨.pongBackend f.payload :: r.outs, r.oversizeMsgDrops, r.exit⟩
    else if f.opcode = OpClose then
      ⟨[.closeBackend (ParseClosePayload f.payload).1 (ParseClosePayload f.payload).2,
        .closeH3 ((ParseClosePayload f.payload).1 % 65536) (ParseClosePayload f.payload).2],
       0, .eofClose⟩
    else
      pumpH3ToBackend lim st fs

/-- The initial assembler state of a pump run (proxy.go lines 136-140: zero
values). -/
def pumpInit : PumpState := ⟨false, 0, []⟩

/-- Models the close handler installed by `pumpBackendToH3` (proxy.go lines
249-253) and the `CloseError` branch (lines 265-273): the backend `int` close
code is converted with a plain `uint16` cast — mathematically `mod 2 ^ 16` —
and handed to `WriteCloseFrame`.  These are the bytes written to the H3
stream. -/
def backendCloseToH3 (code : Int) (text : List Nat) : List Nat :=
  WriteCloseFrame ((code % 65536).toNat) text

/-- Branch oracle for one `HandleH3WebSocket` request (proxy.go lines
27-116): whether the incremented active counter exceeded the limit, and the
outcomes of the method, header, stream-takeover, and backend-dial checks. -/
structure HandleBranches where
  overLimit : Bool
  methodConnect : Bool
  headersValid : Bool
  takeoverOK : Bool
  dialOK : Bool
  deriving DecidableEq, Repr

/-- Events of the supervisor relevant to the claims: the `atomic.AddInt64`
calls on `p.active` and the coarse milestones of each exit path. -/
inductive SupEvent where
  | incActive
  | decActive
  | rejected (reason : String)
  | errorStage (stage : String)
  | respond200
  | acceptedSession
  deriving DecidableEq, Repr

/-- Models the control flow of `HandleH3WebSocket` (proxy.go lines 27-116) as
the list of supervisor events in execution order.  The counter is incremented
on entry; on the admission-refusal path it is decremented inline, on every
other path the deferred decrement (line 34) fires last. -/
def handleH3Events (b : HandleBranches) : List SupEvent :=
  .incActive ::
    (if b.overLimit then
      [.decActive, .rejected "max_conns"]
    else
      (if !b.methodConnect then [.rejected "method"]
       else if !b.headersValid then [.rejected "bad_headers"]
       else if !b.takeoverOK then [.errorStage "no_stream_takeover"]
       else
         .respond200 ::
           (if !b.dialOK then [.errorStage "backend_dial"]
            else [.acceptedSession])) ++ [.decActive])

/-- Net effect of one supervisor event on the process-wide `p.active`
counter. -/
def activeDelta : SupEvent → Int
  | .incActive => 1
  | .decActive => -1
  | _ => 0

/-! ## Helper lemmas about the codec -/

lemma maskFrom_length (key : List Nat) (i : Nat) (l : List Nat) :
    (maskFrom key i l).length = l.length := by
  induction l generalizing i with
  | nil => rfl
  | cons b rest ih => simp [maskFrom, ih]

lemma maskFrom_maskFrom (key : List Nat) (i : Nat) (l : List Nat) :
    maskFrom key i (maskFrom key i l) = l := by
  induction l generalizing i with
  | nil => rfl
  | cons b rest ih =>
    simp [maskFrom, ih, Nat.xor_assoc]

lemma readFull_exact (n : Nat) (l1 l2 : List Nat) (h : l1.length = n) :
    readFull n (l1 ++ l2) = some (l1, l2) := by
  subst h
  simp [readFull, List.take_left, List.drop_left]

lemma beUint_be16 (n : Nat) (h : n ≤ 65535) : beUint (be16 n) = n := by
  simp only [beUint, be16, List.foldl]
  omega

lemma beUint_be64 (n : Nat) (h : n < 2 ^ 64) : beUint (be64 n) = n := by
  simp only [beUint, be64, List.foldl]
  omega

lemma byte1_and_128 (masked : Bool) (L : Nat) (hL : L ≤ 127) :
    ((((if masked then (128 : Nat) else 0) ||| L) &&& 128) != 0) = masked := by
  cases masked <;> interval_cases L <;> decide

lemma byte1_and_127 (masked : Bool) (L : Nat) (hL : L ≤ 127) :
    (((if masked then (128 : Nat) else 0) ||| L) &&& 127) = L := by
  cases masked <;> interval_cases L <;> decide

lemma byte0_and_128 (op : Nat) (hop : op ≤ 15) (fin : Bool) :
    ((((op &&& 15) ||| (if fin then (128 : Nat) else 0)) &&& 128) != 0) = fin := by
  cases fin <;> interval_cases op <;> decide

lemma byte0_and_15 (op : Nat) (hop : op ≤ 15) (fin : Bool) :
    (((op &&& 15) ||| (if fin then (128 : Nat) else 0)) &&& 15) = op := by
  cases fin <;> interval_cases op <;> decide

lemma readRest_ok (fin : Bool) (op : Nat) (masked : Bool)
    (payload key extra : List Nat) (maxp : Int) (hkey : masked = true → key.length = 4)
    (hlim : ¬(0 < maxp ∧ maxp < (payload.length : Int))) :
    readRest fin op masked payload.length
      ((if masked then key ++ maskFrom key 0 payload else payload) ++ extra) maxp =
      ⟨.ok ⟨fin, op, masked, payload⟩, extra, 0⟩ := by
  cases masked with
  | false =>
    rw [readRest, if_neg hlim]
    simp only [if_neg Bool.false_ne_true, readFull_exact payload.length payload extra rfl]
  | true =>
    rw [readRest, if_neg hlim]
    simp [List.append_assoc,
      readFull_exact 4 key (maskFrom key 0 payload ++ extra) (hkey rfl),
      readFull_exact payload.length (maskFrom key 0 payload) extra
        (maskFrom_length key 0 payload), maskFrom_maskFrom]

/-- Round trip of the codec: the bytes `writeFrame` produces decode back to
the same frame, consuming exactly those bytes.  Shared by the C3 and C10
theorems. -/
lemma readFrame_writeFrame (opcode : Nat) (payload : List Nat)
    (masked fin : Bool) (key : List Nat) (maxp : Int) (extra : List Nat)
    (hop : opcode ≤ 15) (hkey : masked = true → key.length = 4)
    (hlim : ¬(0 < maxp ∧ maxp < (payload.length : Int)))
    (hsz : payload.length < 2 ^ 63) :
    ReadFrame (writeFrame opcode payload masked fin key ++ extra) maxp =
      ⟨.ok ⟨fin, opcode, masked, payload⟩, extra, 0⟩ := by
  have hb0a : (((opcode &&& 15) ||| (if fin then (128 : Nat) else 0)) &&& 128 != 0) = fin :=
    byte0_and_128 opcode hop fin
  have hb0b : (((opcode &&& 15) ||| (if fin then (128 : Nat) else 0)) &&& 15) = opcode :=
    byte0_and_15 opcode hop fin
  by_cases h1 : payload.length ≤ 125
  · rw [writeFrame, frameHeader, if_pos h1]
    simp only [List.cons_append, List.nil_append, List.append_assoc]
    rw [ReadFrame]
    simp only [hb0a, hb0b, byte1_and_128 masked payload.length (by omega),
      byte1_and_127 masked payload.length (by omega)]
    rw [if_neg (by omega), if_neg (by omega)]
    exact readRest_ok fin opcode masked payload key extra maxp hkey hlim
  · by_cases h2 : payload.length ≤ 65535
    · rw [writeFrame, frameHeader, if_neg h1, if_pos h2]
      simp only [be16, List.cons_append, List.nil_append, List.append_assoc]
      rw [ReadFrame]
      simp only [hb0a, hb0b, byte1_and_128 masked 126 (by omega),
        byte1_and_127 masked 126 (by omega)]
      rw [if_pos trivial]
      have : (payload.length / 256 % 256) :: payload.length % 256 ::
          ((if masked then key ++ maskFrom key 0 payload else payload) ++ extra) =
          be16 payload.length ++
            ((if masked then key ++ maskFrom key 0 payload else payload) ++ extra) := by
        simp [be16]
      rw [this, readFull_exact 2 (be16 payload.length) _ rfl]
      dsimp only
      rw [beUint_be16 payload.length h2]
      exact readRest_ok fin opcode masked payload key extra maxp hkey hlim
    · rw [writeFrame, frameHeader, if_neg h1, if_neg h2]
      simp only [be64, List.cons_append, List.nil_append, List.append_assoc]
      rw [ReadFrame]
      simp only [hb0a, hb0b, byte1_and_128 masked 127 (by omega),
        byte1_and_127 masked 127 (by omega)]
      rw [if_neg (by omega : ¬(127 : Nat) = 126), if_pos trivial]
      have : (payload.length / 256 ^ 7 % 256) :: (payload.length / 256 ^ 6 % 256) ::
          (payload.length / 256 ^ 5 % 256) :: (payload.length / 256 ^ 4 % 256) ::
          (payload.length / 256 ^ 3 % 256) :: (payload.length / 256 ^ 2 % 256) ::
          (payload.length / 256 % 256) :: payload.length % 256 ::
          ((if masked then key ++ maskFrom key 0 payload else payload) ++ extra) =
          be64 payload.length ++
            ((if masked then key ++ maskFrom key 0 payload else payload) ++ extra) := by
        simp [be64]
      rw [this, readFull_exact 8 (be64 payload.length) _ rfl]
      dsimp only
      rw [beUint_be64 payload.length (by omega), if_neg (by omega)]
      exact readRest_ok fin opcode masked payload key extra maxp hkey hlim

/-! ## Claims -/

/-- C5: the frame header emitter encodes a payload of length exactly 125 with
the 7-bit length form (2-byte header), lengths 126 and 65535 with the 16-bit
big-endian extended form (4-byte header), and length 65536 with the 64-bit
big-endian extended form (10-byte header). -/
theorem c5_header_length_forms (op : Nat) (masked fin : Bool) :
    frameHeader op 125 masked fin =
      [(op &&& 0x0F) ||| (if fin then 0x80 else 0), (if masked then 0x80 else 0) ||| 125] ∧
    frameHeader op 126 masked fin =
      [(op &&& 0x0F) ||| (if fin then 0x80 else 0), (if masked then 0x80 else 0) ||| 126,
        0, 126] ∧
    frameHeader op 65535 masked fin =
      [(op &&& 0x0F) ||| (if fin then 0x80 else 0), (if masked then 0x80 else 0) ||| 126,
        255, 255] ∧
    frameHeader op 65536 masked fin =
      [(op &&& 0x0F) ||| (if fin then 0x80 else 0), (if masked then 0x80 else 0) ||| 127,
        0, 0, 0, 0, 0, 1, 0, 0] ∧
    (frameHeader op 125 masked fin).length = 2 ∧
    (frameHeader op 126 masked fin).length = 4 ∧
    (frameHeader op 65535 masked fin).length = 4 ∧
    (frameHeader op 65536 masked fin).length = 10 := by
  refine ⟨?_, ?_, ?_, ?_, ?_, ?_, ?_, ?_⟩ <;> simp [frameHeader, be16, be64]

/-- C7: the backend close handler does not map out-of-range close codes to
1011; it truncates them with a `uint16` cast.  At backend close code 70000 it
writes a CLOSE frame carrying code 4464 (= 70000 mod 65536), which differs
from the CLOSE(1011) frame the claim requires. -/
theorem c7_close_code_truncated :
    backendCloseToH3 70000 [] = [136, 2, 17, 112] ∧
    ParseClosePayload [17, 112] = (4464, []) ∧
    backendCloseToH3 70000 [] ≠ WriteCloseFrame 1011 [] := by
  decide

lemma splitChunks_ne_nil (m : Nat) (first : Bool) (op : Nat) (rem : List Nat) :
    splitChunks m first op rem ≠ [] := by
  rw [splitChunks]
  split <;> simp

lemma splitChunks_concat (m : Nat) (first : Bool) (op : Nat) (rem : List Nat) :
    chunksConcat (splitChunks m first op rem) = rem := by
  induction first, op, rem using splitChunks.induct m with
  | case1 first op rem h ih =>
    rw [splitChunks, dif_pos h]
    simp only [chunksConcat, List.map_cons, List.foldr_cons]
    rw [show ((splitChunks m false op (rem.drop m)).map SentFrame.chunk).foldr
        (fun a b => a ++ b) [] = chunksConcat (splitChunks m false op (rem.drop m))
        from rfl, ih]
    exact List.take_append_drop m rem
  | case2 first op rem h =>
    rw [splitChunks, dif_neg h]
    simp [chunksConcat]

lemma splitChunks_map_op (m : Nat) (first : Bool) (op : Nat) (rem : List Nat) :
    (splitChunks m first op rem).map SentFrame.op =
      (if first then op else OpCont) ::
        List.replicate ((splitChunks m first op rem).length - 1) OpCont := by
  induction first, op, rem using splitChunks.induct m with
  | case1 first op rem h ih =>
    have hpos : 0 < (splitChunks m false op (rem.drop m)).length :=
      List.length_pos.mpr (splitChunks_ne_nil m false op (rem.drop m))
    rw [splitChunks, dif_pos h]
    simp only [List.map_cons, ih, List.length_cons, Nat.add_sub_cancel]
    congr 1
    rw [show (splitChunks m false op (rem.drop m)).length =
      ((splitChunks m false op (rem.drop m)).length - 1) + 1 by omega,
      List.replicate_succ]
    simp
  | case2 first op rem h =>
    rw [splitChunks, dif_neg h]
    simp

lemma splitChunks_map_fin (m : Nat) (first : Bool) (op : Nat) (rem : List Nat) :
    (splitChunks m first op rem).map SentFrame.fin =
      List.replicate ((splitChunks m first op rem).length - 1) false ++ [true] := by
  induction first, op, rem using splitChunks.induct m with
  | case1 first op rem h ih =>
    have hpos : 0 < (splitChunks m false op (rem.drop m)).length :=
      List.length_pos.mpr (splitChunks_ne_nil m false op (rem.drop m))
    rw [splitChunks, dif_pos h]
    simp only [List.map_cons, ih, List.length_cons, Nat.add_sub_cancel]
    rw [show (splitChunks m false op (rem.drop m)).length =
      ((splitChunks m false op (rem.drop m)).length - 1) + 1 by omega,
      List.replicate_succ, List.cons_append]
    simp
  | case2 first op rem h =>
    rw [splitChunks, dif_neg h]
    simp

lemma splitChunks_dropLast_sizes (m : Nat) (first : Bool) (op : Nat)
    (rem : List Nat) :
    ∀ sf ∈ (splitChunks m first op rem).dropLast, sf.chunk.length = m := by
  induction first, op, rem using splitChunks.induct m with
  | case1 first op rem h ih =>
    rw [splitChunks, dif_pos h,
      List.dropLast_cons_of_ne_nil (splitChunks_ne_nil m false op (rem.drop m))]
    intro sf hsf
    rcases List.mem_cons.mp hsf with heq | hmem
    · subst heq
      simp only [List.length_take]
      omega
    · exact ih sf hmem
  | case2 first op rem h =>
    rw [splitChunks, dif_neg h]
    simp

lemma pump_flushed_le (lim : Int) (fs : List Frame) :
    ∀ (st : PumpState) (op : Nat) (msg : List Nat),
      H3Out.toBackend op msg ∈ (pumpH3ToBackend lim st fs).outs →
      (msg.length : Int) ≤ lim := by
  induction fs with
  | nil =>
    intro st op msg hm
    simp [pumpH3ToBackend] at hm
  | cons f fs ih =>
    intro st op msg hm
    simp only [pumpH3ToBackend] at hm
    by_cases hd : f.opcode = OpText ∨ f.opcode = OpBinary
    · rw [if_pos hd] at hm
      by_cases ha : st.assembling = true
      · rw [if_pos ha] at hm
        simp at hm
      · rw [if_neg ha] at hm
        by_cases hf : f.fin = true
        · rw [if_pos hf] at hm
          by_cases hl : lim < (f.payload.length : Int)
          · rw [if_pos hl] at hm
            simp at hm
          · rw [if_neg hl] at hm
            simp only [flushMessage, if_pos hd] at hm
            rcases List.mem_append.mp hm with h1 | h2
            · simp at h1
              rcases h1 with ⟨h1a, h1b⟩
              subst h1b
              omega
            · exact ih st op msg h2
        · rw [if_neg hf] at hm
          by_cases hl : lim < (f.payload.length : Int)
          · rw [if_pos hl] at hm
            simp at hm
          · rw [if_neg hl] at hm
            exact ih _ op msg hm
    · rw [if_neg hd] at hm
      by_cases hc : f.opcode = OpCont
      · rw [if_pos hc] at hm
        by_cases ha : st.assembling = true
        · rw [if_neg (by simp [ha])] at hm
          by_cases hl : lim < ((st.assemPayload ++ f.payload).length : Int)
          · rw [if_pos hl] at hm
            simp at hm
          · rw [if_neg hl] at hm
            by_cases hf : f.fin = true
            · rw [if_pos hf] at hm
              simp only [flushMessage] at hm
              rcases List.mem_append.mp hm with h1 | h2
              · by_cases ho : st.assemOpcode = OpText ∨ st.assemOpcode = OpBinary
                · rw [if_pos ho] at h1
                  simp at h1
                  rcases h1 with ⟨h1a, h1b⟩
                  subst h1b
                  omega
                · rw [if_neg ho] at h1
                  simp at h1
              · exact ih _ op msg h2
            · rw [if_neg hf] at hm
              exact ih _ op msg hm
        · rw [if_pos (by simp [Bool.not_eq_true] at ha ⊢; exact ha)] at hm
          simp at hm
      · rw [if_neg hc] at hm
        by_cases hp : f.opcode = OpPing
        · rw [if_pos hp] at hm
          simp only [List.mem_cons] at hm
          rcases hm with h1 | h2 | h3
          · simp at h1
          · simp at h2
          · exact ih st op msg h3
        · rw [if_neg hp] at hm
          by_cases hq : f.opcode = OpPong
          · rw [if_pos hq] at hm
            simp only [List.mem_cons] at hm
            rcases hm with h1 | h2
            · simp at h1
            · exact ih st op msg h2
          · rw [if_neg hq] at hm
            by_cases hcl : f.opcode = OpClose
            · rw [if_pos hcl] at hm
              simp at hm
            · rw [if_neg hcl] at hm
              exact ih st op msg hm

lemma pump_oversize_spec (lim : Int) (fs : List Frame) :
    ∀ st : PumpState,
      ((pumpH3ToBackend lim st fs).exit = .msgTooBig →
        H3Out.closeH3 1009 msgTooBig ∈ (pumpH3ToBackend lim st fs).outs ∧
        (pumpH3ToBackend lim st fs).oversizeMsgDrops = 1) ∧
      ((pumpH3ToBackend lim st fs).exit ≠ .msgTooBig →
        (pumpH3ToBackend lim st fs).oversizeMsgDrops = 0) := by
  induction fs with
  | nil =>
    intro st
    simp [pumpH3ToBackend]
  | cons f fs ih =>
    intro st
    simp only [pumpH3ToBackend]
    by_cases hd : f.opcode = OpText ∨ f.opcode = OpBinary
    · rw [if_pos hd]
      by_cases ha : st.assembling = true
      · rw [if_pos ha]
        simp
      · rw [if_neg ha]
        by_cases hf : f.fin = true
        · rw [if_pos hf]
          by_cases hl : lim < (f.payload.length : Int)
          · rw [if_pos hl]
            simp
          · rw [if_neg hl]
            refine ⟨fun h => ?_, (ih st).2⟩
            exact ⟨List.mem_append.mpr (Or.inr ((ih st).1 h).1), ((ih st).1 h).2⟩
        · rw [if_neg hf]
          by_cases hl : lim < (f.payload.length : Int)
          · rw [if_pos hl]
            simp
          · rw [if_neg hl]
            exact ih _
    · rw [if_neg hd]
      by_cases hc : f.opcode = OpCont
      · rw [if_pos hc]
        by_cases ha : st.assembling = true
        · rw [if_neg (by simp [ha])]
          by_cases hl : lim < ((st.assemPayload ++ f.payload).length : Int)
          · rw [if_pos hl]
            simp
          · rw [if_neg hl]
            by_cases hf : f.fin = true
            · rw [if_pos hf]
              refine ⟨fun h => ?_, (ih _).2⟩
              exact ⟨List.mem_append.mpr (Or.inr ((ih _).1 h).1), ((ih _).1 h).2⟩
            · rw [if_neg hf]
              exact ih _
        · rw [if_pos (by simp [Bool.not_eq_true] at ha ⊢; exact ha)]
          simp
      · rw [if_neg hc]
        by_cases hp : f.opcode = OpPing
        · rw [if_pos hp]
          refine ⟨fun h => ?_, (ih st).2⟩
          exact ⟨List.mem_cons_of_mem _ (List.mem_cons_of_mem _ ((ih st).1 h).1),
            ((ih st).1 h).2⟩
        · rw [if_neg hp]
          by_cases hq : f.opcode = OpPong
          · rw [if_pos hq]
            refine ⟨fun h => ?_, (ih st).2⟩
            exact ⟨List.mem_cons_of_mem _ ((ih st).1 h).1, ((ih st).1 h).2⟩
          · rw [if_neg hq]
            by_cases hcl : f.opcode = OpClose
            · rw [if_pos hcl]
              simp
            · rw [if_neg hcl]
              exact ih st

/-- C1: over any sequence of incoming data frames (TEXT, BINARY, CONT), every
message the pump flushes to the backend has length at most
`max_message_size`; when the run ends with the message-too-big error, a
CLOSE(1009, "message too big") was written to the H3 side and
`oversize_drops{kind=message}` was bumped exactly once, and on any other
ending the counter is untouched. -/
theorem c1_message_size_enforced (lim : Int) (fs : List Frame)
    (hdata : ∀ f ∈ fs, f.opcode = OpText ∨ f.opcode = OpBinary ∨
      f.opcode = OpCont) :
    (∀ op msg, H3Out.toBackend op msg ∈ (pumpH3ToBackend lim pumpInit fs).outs →
      (msg.length : Int) ≤ lim) ∧
    ((pumpH3ToBackend lim pumpInit fs).exit = .msgTooBig →
      H3Out.closeH3 1009 msgTooBig ∈ (pumpH3ToBackend lim pumpInit fs).outs ∧
      (pumpH3ToBackend lim pumpInit fs).oversizeMsgDrops = 1) ∧
    ((pumpH3ToBackend lim pumpInit fs).exit ≠ .msgTooBig →
      (pumpH3ToBackend lim pumpInit fs).oversizeMsgDrops = 0) :=
  ⟨fun op msg => pump_flushed_le lim fs pumpInit op msg,
    (pump_oversize_spec lim fs pumpInit).1, (pump_oversize_spec lim fs pumpInit).2⟩

theorem c1_message_size_enforced_witness :
    H3Out.closeH3 1009 msgTooBig ∈
      (pumpH3ToBackend 4 pumpInit
        [⟨false, OpText, false, [97, 98]⟩, ⟨false, OpCont, false, [99, 100]⟩,
         ⟨true, OpCont, false, [101]⟩]).outs ∧
    (pumpH3ToBackend 4 pumpInit
        [⟨false, OpText, false, [97, 98]⟩, ⟨false, OpCont, false, [99, 100]⟩,
         ⟨true, OpCont, false, [101]⟩]).oversizeMsgDrops = 1 :=
  (c1_message_size_enforced 4
    [⟨false, OpText, false, [97, 98]⟩, ⟨false, OpCont, false, [99, 100]⟩,
     ⟨true, OpCont, false, [101]⟩] (by decide)).2.1 (by decide)

/-- C2: a CONT frame with no pending fragment stops the pump with the
continuation-without-start protocol error; a TEXT or BINARY frame while
assembling stops it with the new-data-frame protocol error; and a CONT frame
while assembling is accepted and appended — continuing the loop when not
final, flushing the assembled message when final, and failing with
message-too-big when the appended length exceeds the limit. -/
theorem c2_continuation_protocol (lim : Int) (st : PumpState) (f : Frame)
    (fs : List Frame) :
    (f.opcode = OpCont → st.assembling = false →
      pumpH3ToBackend lim st (f :: fs) = ⟨[], 0, .contWithoutStart⟩) ∧
    ((f.opcode = OpText ∨ f.opcode = OpBinary) → st.assembling = true →
      pumpH3ToBackend lim st (f :: fs) = ⟨[], 0, .newDataWhileAssembling⟩) ∧
    (f.opcode = OpCont → st.assembling = true →
      ((st.assemPayload ++ f.payload).length : Int) ≤ lim → f.fin = false →
      pumpH3ToBackend lim st (f :: fs) =
        pumpH3ToBackend lim ⟨true, st.assemOpcode, st.assemPayload ++ f.payload⟩ fs) ∧
    (f.opcode = OpCont → st.assembling = true →
      ((st.assemPayload ++ f.payload).length : Int) ≤ lim → f.fin = true →
      pumpH3ToBackend lim st (f :: fs) =
        ⟨flushMessage st.assemOpcode (st.assemPayload ++ f.payload) ++
            (pumpH3ToBackend lim ⟨false, st.assemOpcode, []⟩ fs).outs,
          (pumpH3ToBackend lim ⟨false, st.assemOpcode, []⟩ fs).oversizeMsgDrops,
          (pumpH3ToBackend lim ⟨false, st.assemOpcode, []⟩ fs).exit⟩) ∧
    (f.opcode = OpCont → st.assembling = true →
      lim < ((st.assemPayload ++ f.payload).length : Int) →
      pumpH3ToBackend lim st (f :: fs) = ⟨[.closeH3 1009 msgTooBig], 1, .msgTooBig⟩) := by
  have hnd : f.opcode = OpCont → ¬(f.opcode = OpText ∨ f.opcode = OpBinary) := by
    intro hc
    rw [hc]
    decide
  refine ⟨fun hc ha => ?_, fun hd ha => ?_, fun hc ha hl hf => ?_,
    fun hc ha hl hf => ?_, fun hc ha hl => ?_⟩
  · simp only [pumpH3ToBackend]
    rw [if_neg (hnd hc), if_pos hc, if_pos (by simp [ha])]
  · simp only [pumpH3ToBackend]
    rw [if_pos hd, if_pos ha]
  · simp only [pumpH3ToBackend]
    rw [if_neg (hnd hc), if_pos hc, if_neg (by simp [ha]), if_neg (by omega),
      if_neg (by simp [hf])]
  · simp only [pumpH3ToBackend]
    rw [if_neg (hnd hc), if_pos hc, if_neg (by simp [ha]), if_neg (by omega),
      if_pos hf]
  · simp only [pumpH3ToBackend]
    rw [if_neg (hnd hc), if_pos hc, if_neg (by simp [ha]), if_pos hl]

theorem c2_continuation_protocol_witness :
    pumpH3ToBackend 10 pumpInit [⟨true, OpCont, false, [1]⟩] =
      ⟨[], 0, .contWithoutStart⟩ ∧
    pumpH3ToBackend 10 ⟨true, OpText, [5]⟩ [⟨true, OpBinary, false, [2]⟩] =
      ⟨[], 0, .newDataWhileAssembling⟩ ∧
    pumpH3ToBackend 10 ⟨true, OpText, [5]⟩ [⟨false, OpCont, false, [6]⟩] =
      pumpH3ToBackend 10 ⟨true, OpText, [5, 6]⟩ [] ∧
    pumpH3ToBackend 3 ⟨true, OpText, [5, 6]⟩ [⟨false, OpCont, false, [7, 8]⟩] =
      ⟨[.closeH3 1009 msgTooBig], 1, .msgTooBig⟩ := by
  refine ⟨(c2_continuation_protocol 10 pumpInit ⟨true, OpCont, false, [1]⟩ []).1
      rfl rfl, ?_, ?_, ?_⟩
  · exact (c2_continuation_protocol 10 ⟨true, OpText, [5]⟩
      ⟨true, OpBinary, false, [2]⟩ []).2.1 (Or.inr rfl) rfl
  · exact (c2_continuation_protocol 10 ⟨true, OpText, [5]⟩
      ⟨false, OpCont, false, [6]⟩ []).2.2.1 rfl rfl (by decide) rfl
  · exact (c2_continuation_protocol 3 ⟨true, OpText, [5, 6]⟩
      ⟨false, OpCont, false, [7, 8]⟩ []).2.2.2.2 rfl rfl (by decide)

/-- C4: `WriteDataFrame` with `max_frame_size ≤ 0` or a payload that fits
emits exactly one frame with the original opcode and fin set; otherwise it
fragments into a first frame carrying the original opcode with fin clear,
CONT frames after it, a final frame with fin set, every chunk but the last of
size exactly `max_frame_size`, and the chunks concatenating back to the
payload.  A 10-byte payload at `max_frame_size = 3` yields sizes 3,3,3,1 with
fins false,false,false,true. -/
theorem c4_write_data_frame_fragmentation (op : Nat) (payload : List Nat)
    (maxFrameSize : Int) :
    (maxFrameSize ≤ 0 ∨ (payload.length : Int) ≤ maxFrameSize →
      WriteDataFrame op payload maxFrameSize = [⟨op, payload, true⟩]) ∧
    (0 < maxFrameSize → maxFrameSize < (payload.length : Int) →
      chunksConcat (WriteDataFrame op payload maxFrameSize) = payload ∧
      (WriteDataFrame op payload maxFrameSize).map SentFrame.op =
        op :: List.replicate ((WriteDataFrame op payload maxFrameSize).length - 1)
          OpCont ∧
      (WriteDataFrame op payload maxFrameSize).map SentFrame.fin =
        List.replicate ((WriteDataFrame op payload maxFrameSize).length - 1)
          false ++ [true] ∧
      (∀ sf ∈ (WriteDataFrame op payload maxFrameSize).dropLast,
        sf.chunk.length = maxFrameSize.toNat)) ∧
    WriteDataFrame OpBinary [0, 1, 2, 3, 4, 5, 6, 7, 8, 9] 3 =
      [⟨OpBinary, [0, 1, 2], false⟩, ⟨OpCont, [3, 4, 5], false⟩,
       ⟨OpCont, [6, 7, 8], false⟩, ⟨OpCont, [9], true⟩] := by
  refine ⟨fun h => by rw [WriteDataFrame, if_pos h], fun h1 h2 => ?_, ?_⟩
  · have hcond : ¬(maxFrameSize ≤ 0 ∨ (payload.length : Int) ≤ maxFrameSize) := by
      omega
    rw [WriteDataFrame, if_neg hcond]
    refine ⟨splitChunks_concat maxFrameSize.toNat true op payload, ?_, ?_, ?_⟩
    · simpa using splitChunks_map_op maxFrameSize.toNat true op payload
    · exact splitChunks_map_fin maxFrameSize.toNat true op payload
    · exact splitChunks_dropLast_sizes maxFrameSize.toNat true op payload
  · rw [WriteDataFrame, if_neg (by norm_num)]
    rw [splitChunks, dif_pos (by decide)]
    rw [splitChunks, dif_pos (by decide)]
    rw [splitChunks, dif_pos (by decide)]
    rw [splitChunks, dif_neg (by decide)]
    decide

theorem c4_write_data_frame_fragmentation_witness :
    WriteDataFrame 1 [7, 8] 5 = [⟨1, [7, 8], true⟩] ∧
    chunksConcat (WriteDataFrame 1 [7, 8, 9] 2) = [7, 8, 9] := by
  refine ⟨(c4_write_data_frame_fragmentation 1 [7, 8] 5).1 (Or.inr (by decide)), ?_⟩
  exact ((c4_write_data_frame_fragmentation 1 [7, 8, 9] 2).2.1 (by decide)
    (by decide)).1

/-- C3: for every well-formed frame (opcode at most 0x0F, payload length at
most `max_frame_size`), encoding with the frame writer and decoding the
produced bytes with `ReadFrame` under the same bound yields the same fin,
opcode, masked flag and payload, consuming exactly the bytes written (the
trailing `extra` bytes are left in the reader). -/
theorem c3_codec_roundtrip (opcode : Nat) (payload : List Nat)
    (masked fin : Bool) (key : List Nat) (maxFrameSize : Int) (extra : List Nat)
    (hop : opcode ≤ 0x0F) (hkey : masked = true → key.length = 4)
    (hlen : (payload.length : Int) ≤ maxFrameSize)
    (hsz : payload.length < 2 ^ 63) :
    ReadFrame (writeFrame opcode payload masked fin key ++ extra) maxFrameSize =
      ⟨.ok ⟨fin, opcode, masked, payload⟩, extra, 0⟩ :=
  readFrame_writeFrame opcode payload masked fin key maxFrameSize extra hop hkey
    (by omega) hsz

theorem c3_codec_roundtrip_witness :
    ReadFrame (writeFrame 1 [5, 6] true true [1, 2, 3, 4] ++ [9]) 100 =
      ⟨.ok ⟨true, 1, true, [5, 6]⟩, [9], 0⟩ :=
  c3_codec_roundtrip 1 [5, 6] true true [1, 2, 3, 4] 100 [9] (by decide)
    (fun _ => by decide) (by decide) (by norm_num)

/-- C9: a masked write emits the header, the mask key, and a freshly masked
copy of the payload (pointwise xor with the key); masking is an involution,
so the original payload is recoverable byte for byte from the stream and the
payload value itself is untouched.  An unmasked write emits the payload bytes
exactly as given. -/
theorem c9_masked_write (op : Nat) (payload : List Nat) (fin : Bool)
    (key : List Nat) :
    writeFrame op payload true fin key =
      frameHeader op payload.length true fin ++ (key ++ maskFrom key 0 payload) ∧
    maskFrom key 0 (maskFrom key 0 payload) = payload ∧
    writeFrame op payload false fin key =
      frameHeader op payload.length false fin ++ payload :=
  ⟨rfl, maskFrom_maskFrom key 0 payload, rfl⟩

/-- C10: `WriteCloseFrame` emits a CLOSE frame with fin set whose payload is
the big-endian code followed by the reason truncated to 123 bytes, so the
payload length is `min (2 + len reason) 125` and the first two bytes always
carry the full code (decodable back via `beUint`). -/
theorem c10_close_frame_payload (code : Nat) (reason : List Nat)
    (hc : code < 65536) :
    (ReadFrame (WriteCloseFrame code reason) 0).result =
      .ok ⟨true, OpClose, false, be16 code ++ reason.take 123⟩ ∧
    (be16 code ++ reason.take 123).length = min (2 + reason.length) 125 ∧
    beUint (be16 code) = code := by
  have hpl : (if 125 < (be16 code ++ reason).length then (be16 code ++ reason).take 125
      else be16 code ++ reason) = be16 code ++ reason.take 123 := by
    by_cases h : 125 < (be16 code ++ reason).length
    · rw [if_pos h, List.take_append_eq_append_take,
        List.take_of_length_le (show (be16 code).length ≤ 125 by simp [be16])]
      norm_num [be16]
    · rw [if_neg h]
      have hr : reason.take 123 = reason :=
        List.take_of_length_le (by simp [be16] at h; omega)
      rw [hr]
  have hrt := readFrame_writeFrame OpClose (be16 code ++ reason.take 123) false true
    [] 0 [] (by decide) (fun hcon => nomatch hcon)
    (fun hcon => absurd hcon.1 (by decide))
    (by simp only [List.length_append, be16, List.length_cons, List.length_nil,
          List.length_take]
        omega)
  rw [List.append_nil] at hrt
  refine ⟨?_, ?_, beUint_be16 code (by omega)⟩
  · simp only [WriteCloseFrame]
    rw [hpl, hrt]
  · simp only [List.length_append, be16, List.length_cons, List.length_nil,
      List.length_take]
    omega

theorem c10_close_frame_payload_witness :
    (ReadFrame (WriteCloseFrame 1009 [104, 105]) 0).result =
      .ok ⟨true, OpClose, false, be16 1009 ++ [104, 105].take 123⟩ ∧
    (be16 1009 ++ [104, 105].take 123).length = min (2 + 2) 125 ∧
    beUint (be16 1009) = 1009 := by
  have h := c10_close_frame_payload 1009 [104, 105] (by decide)
  simpa using h

/-- C6: when the decoded payload length exceeds a positive `max_payload`,
`ReadFrame` bumps `oversize_drops{kind=frame}` once and fails with the
frame-too-large error immediately after the length field, leaving the mask
key and payload bytes (`tail`) unconsumed, for all three length forms. -/
theorem c6_frame_too_large_no_drain (b0 b1 : Nat) (tail : List Nat) (maxp : Int) :
    (b1 &&& 0x7F ≤ 125 → 0 < maxp → maxp < ((b1 &&& 0x7F : Nat) : Int) →
      ReadFrame (b0 :: b1 :: tail) maxp = ⟨.error .frameTooLarge, tail, 1⟩) ∧
    (∀ e1 e2 : Nat, b1 &&& 0x7F = 126 → 0 < maxp →
      maxp < ((e1 * 256 + e2 : Nat) : Int) →
      ReadFrame (b0 :: b1 :: e1 :: e2 :: tail) maxp =
        ⟨.error .frameTooLarge, tail, 1⟩) ∧
    (∀ e : List Nat, e.length = 8 → b1 &&& 0x7F = 127 → beUint e < 2 ^ 63 →
      0 < maxp → maxp < ((beUint e : Nat) : Int) →
      ReadFrame (b0 :: b1 :: (e ++ tail)) maxp = ⟨.error .frameTooLarge, tail, 1⟩) := by
  refine ⟨?_, ?_, ?_⟩
  · intro hle hm hlt
    rw [ReadFrame, if_neg (by omega), if_neg (by omega), readRest, if_pos ⟨hm, hlt⟩]
  · intro e1 e2 h126 hm hlt
    rw [ReadFrame, if_pos h126,
      show e1 :: e2 :: tail = [e1, e2] ++ tail from rfl,
      readFull_exact 2 [e1, e2] tail rfl]
    dsimp only
    rw [readRest]
    rw [if_pos ⟨hm, by simpa [beUint] using hlt⟩]
  · intro e he h127 hsz hm hlt
    rw [ReadFrame, if_neg (by omega), if_pos h127, readFull_exact 8 e tail he]
    dsimp only
    rw [if_neg (by omega), readRest, if_pos ⟨hm, hlt⟩]

theorem c6_frame_too_large_no_drain_witness :
    ReadFrame [129, 10, 1, 2, 3] 5 = ⟨.error .frameTooLarge, [1, 2, 3], 1⟩ ∧
    ReadFrame [129, 126, 1, 0, 9] 5 = ⟨.error .frameTooLarge, [9], 1⟩ ∧
    ReadFrame [129, 127, 0, 0, 0, 0, 0, 0, 1, 0, 7] 5 =
      ⟨.error .frameTooLarge, [7], 1⟩ := by
  refine ⟨(c6_frame_too_large_no_drain 129 10 [1, 2, 3] 5).1 (by decide) (by decide)
      (by decide), ?_, ?_⟩
  · exact (c6_frame_too_large_no_drain 129 126 [9] 5).2.1 1 0 (by decide) (by decide)
      (by decide)
  · exact (c6_frame_too_large_no_drain 129 127 [7] 5).2.2
      [0, 0, 0, 0, 0, 0, 1, 0] (by decide) (by decide) (by decide) (by decide)
      (by decide)

/-- C8: for every branch outcome of `HandleH3WebSocket`, the process-wide
active counter is incremented exactly once and decremented exactly once, so
the sum of its deltas over the request is zero and its value on return equals
its value before the request. -/
theorem c8_active_count_balanced (b : HandleBranches) :
    ((handleH3Events b).map activeDelta).sum = 0 ∧
    (handleH3Events b).count .incActive = 1 ∧
    (handleH3Events b).count .decActive = 1 := by
  obtain ⟨o, m, hd, t, d⟩ := b
  cases o <;> cases m <;> cases hd <;> cases t <;> cases d <;> decide

end WS
